import Mathlib

/-!
Verification of the deduplicator core (src/processor.rs, src/server.rs, src/main.rs).

The concurrent pipeline of `processor.rs` is embedded as a sequentialization:
the `DashMap` stores become association lists with the per-key atomic
"check path absence, then append" insertion, the shared file queue becomes a
`List` consumed in pop order, and the busy-polling loops of `sizewise` and
`hashwise` become explicit step functions driven by fuel.  The digest engine
(`fileinfo.rs`) is not part of the sources and is modelled from the spec.
-/

/-- Source tag of a discovered file (fileinfo.rs `FileSource`): a file scanned
from the staging directory or from the target directory in comparison mode. -/
inductive FileSource where
  | Staging
  | Target
  deriving DecidableEq, Repr

/-- Modelled from the spec: `FileInfo` lives in fileinfo.rs, which is missing
from the sources.  Per section 3 of the spec a FileRecord has an absolute path,
a byte size, an optional source tag and a "partially hashed" flag mutated by
the hash stage.  The file's byte content (`content`) stands for what the digest
engine reads; `none` models a file that cannot be read (per-file I/O error). -/
structure FileInfo where
  path : String
  size : Nat
  source : Option FileSource
  content : Option (List Nat)
  swProcessed : Bool
  deriving DecidableEq, Repr

/-- A content digest.  Modelled from the spec: the digest engine is
deterministic in (content, seed) and any differing byte in the hashed region
gives distinct digests up to negligible collision probability (section 4.1);
the idealization makes the digest collision-free by letting it determine the
hashed region and the seed. -/
abbrev Digest := List Nat × Int

/-- Modelled from the spec: the bounded leading region hashed in prefix (fast)
mode is the first 16 KiB of the file (section 4.1, "first 16,384-byte prefix"). -/
def initPagesBytes : Nat := 16384

/-- Modelled from the spec: `fullHash(file, seed)` digests the entire content. -/
def fullHash (content : List Nat) (seed : Int) : Digest :=
  (content, seed)

/-- Modelled from the spec: `prefixHash(file, seed)` digests only the first
`initPagesBytes` bytes of the content. -/
def prefixHash (content : List Nat) (seed : Int) : Digest :=
  (content.take initPagesBytes, seed)

/-- Modelled from the spec: `FileInfo::hash(seed)` (fileinfo.rs, missing from
the sources) computes the full-content digest and surfaces a per-file I/O
error when the file cannot be read. -/
def FileInfo.hash (f : FileInfo) (seed : Int) : Except String Digest :=
  match f.content with
  | some c => Except.ok (fullHash c seed)
  | none => Except.error "io error"

/-- Modelled from the spec: `FileInfo::initpages_hash(seed)` computes the
bounded-prefix digest, failing the same way on an unreadable file. -/
def FileInfo.initpages_hash (f : FileInfo) (seed : Int) : Except String Digest :=
  match f.content with
  | some c => Except.ok (prefixHash c seed)
  | none => Except.error "io error"

/-- The `and_modify` closure used by all three stores (processor.rs:136-141,
85-90, 180-185): append the file to the bucket only if its path is not already
present. -/
def bucketInsert (bucket : List FileInfo) (f : FileInfo) : List FileInfo :=
  if bucket.any (fun g => g.path = f.path) then bucket else bucket ++ [f]

/-- The `entry(k).and_modify(...).or_insert_with(|| vec![f])` upsert on a
`DashMap` (processor.rs:134-142, 83-91, 178-186), sequentialized over an
association list: modify the existing bucket for `k`, or create `[f]`. -/
def mapInsert {κ : Type} [DecidableEq κ] :
    List (κ × List FileInfo) → κ → FileInfo → List (κ × List FileInfo)
  | [], k, f => [(k, [f])]
  | (k2, b) :: rest, k, f =>
    if k = k2 then (k2, bucketInsert b f) :: rest
    else (k2, b) :: mapInsert rest k f

/-- Reading a bucket out of a store (`DashMap::get`, defaulting to empty). -/
def mapLookup {κ : Type} [DecidableEq κ] :
    List (κ × List FileInfo) → κ → List FileInfo
  | [], _ => []
  | (k2, b) :: rest, k => if k = k2 then b else mapLookup rest k

/-- The size-keyed store of the size-grouping stage (`sw_store`). -/
abbrev SizeMap := List (Nat × List FileInfo)

/-- The digest-keyed store of the hash-grouping stage and of comparison mode. -/
abbrev HashMapD := List (Digest × List FileInfo)

/-- Generic store builder: insert every file of the list under the key `keyf`
assigns it, skipping files with no key.  Sequentializes the insertion loops of
`sizewise` and `comparison_mode`. -/
def buildMap {κ : Type} [DecidableEq κ] (keyf : FileInfo → Option κ)
    (init : List (κ × List FileInfo)) (l : List FileInfo) :
    List (κ × List FileInfo) :=
  l.foldl (fun m f =>
    match keyf f with
    | some k => mapInsert m k f
    | none => m) init

/-- The size-grouping stage (processor.rs:105-154) run to completion on a file
queue: each popped file is upserted into the size-keyed store.  The list is
taken in pop order (the Rust `Vec::pop` drains the queue from the back). -/
def sizewise (files : List FileInfo) : SizeMap :=
  buildMap (fun f => some f.size) [] files

/-- Digest chosen by the hash stage (processor.rs:73-76): full hash in strict
mode, init-pages hash otherwise. -/
def fileDigest (strict : Bool) (seed : Int) (f : FileInfo) : Except String Digest :=
  if strict then f.hash seed else f.initpages_hash seed

/-- One group body of the hash stage (processor.rs:69-92): every member of the
group is hashed and upserted into the digest-keyed store; a digest failure is
`.expect`-ed in the Rust code, i.e. it panics, which the embedding models as
an `Except.error` aborting the stage. -/
def processGroup (strict : Bool) (seed : Int) (hw : HashMapD)
    (group : List FileInfo) : Except String HashMapD :=
  group.foldlM (fun acc f =>
    match fileDigest strict seed f with
    | Except.ok h => Except.ok (mapInsert acc h f)
    | Except.error e => Except.error e) hw

/-- The key scan of the hash stage (processor.rs:49-55): size buckets that are
not yet fully processed and have more than one member. -/
def qualifying (sw : SizeMap) : SizeMap :=
  (sw.filter (fun kv => ¬ kv.2.all (fun f => f.swProcessed))).filter
    (fun kv => kv.2.length > 1)

/-- The hash-grouping stage (processor.rs:29-97) run to completion on a settled
size store: process every qualifying size bucket (re-checking `len > 1` as the
code does at line 68), aborting if any digest computation fails. -/
def hashwise (strict : Bool) (seed : Int) (sw : SizeMap) : Except String HashMapD :=
  (qualifying sw).foldlM (fun hw kv =>
    if kv.2.length > 1 then processGroup strict seed hw kv.2 else Except.ok hw) []

/-- `compare_and_update_max_path_len` (processor.rs:99-103): store `next` into
the counter only when it exceeds the current value. -/
def compare_and_update_max_path_len (current next : Nat) : Nat :=
  if current < next then next else current

/-- Result of comparison mode (processor.rs:15-19). -/
structure ComparisonResult where
  files_to_delete : List FileInfo
  warnings : List String
  deriving DecidableEq, Repr

/-- Staging-tagged members of a hash group (processor.rs:199-201). -/
def stagingOf (group : List FileInfo) : List FileInfo :=
  group.filter (fun f => f.source = some FileSource.Staging)

/-- Target-tagged members of a hash group (processor.rs:202-204). -/
def targetOf (group : List FileInfo) : List FileInfo :=
  group.filter (fun f => f.source = some FileSource.Target)

/-- Deletions contributed by one hash group (processor.rs:207-209): when the
group has both a Staging and a Target member, every Staging member is marked
for deletion; otherwise nothing. -/
def groupDeletions (group : List FileInfo) : List FileInfo :=
  if ¬ (stagingOf group).isEmpty ∧ ¬ (targetOf group).isEmpty then
    stagingOf group
  else []

/-- Warnings contributed by one hash group (processor.rs:211-220): inside the
both-sides-present branch, when the target side has more than one member, a
header warning naming the count followed by one line per redundant target path. -/
def groupWarnings (group : List FileInfo) : List String :=
  if ¬ (stagingOf group).isEmpty ∧ ¬ (targetOf group).isEmpty then
    if (targetOf group).length > 1 then
      ("Warning: Hash has " ++ toString (targetOf group).length
          ++ " instances in target folder:")
        :: (targetOf group).map (fun f => "  - " ++ f.path)
    else []
  else []

/-- The `duplicates_table` built by comparison mode (processor.rs:172-192):
every input file is full-hashed with the run's seed and upserted; a file whose
hash fails is skipped (the code prints a warning to stderr and continues). -/
def comparisonTable (files : List FileInfo) (seed : Int) : HashMapD :=
  buildMap (fun f => (f.hash seed).toOption) [] files

/-- The stderr warnings printed by comparison mode's hashing loop
(processor.rs:188-190), one per file whose digest computation fails. -/
def comparisonStderr (files : List FileInfo) (seed : Int) : List String :=
  files.filterMap (fun f =>
    match f.hash seed with
    | Except.ok _ => none
    | Except.error e =>
      some ("Warning: Failed to hash file " ++ f.path ++ ": " ++ e))

/-- `Processor::comparison_mode` (processor.rs:156-228): empty input short
circuits; otherwise the duplicates table is built and each of its groups
contributes its deletions and warnings in turn. -/
def comparison_mode (files : List FileInfo) (seed : Int) : ComparisonResult :=
  if files.isEmpty then
    { files_to_delete := [], warnings := [] }
  else
    (comparisonTable files seed).foldl
      (fun acc kv =>
        { files_to_delete := acc.files_to_delete ++ groupDeletions kv.2
          warnings := acc.warnings ++ groupWarnings kv.2 })
      { files_to_delete := [], warnings := [] }

/-- Outcome of one iteration of a busy-polling loop: continue with a new state
or break with a result. -/
inductive StepOut (σ α : Type) where
  | next (s : σ) : StepOut σ α
  | done (a : α) : StepOut σ α
  deriving Repr

/-- State of the `sizewise` loop: the shared file queue (in pop order), the
discovery-completion flag, and the size store built so far. -/
structure SwState where
  queue : List FileInfo
  scannerFinished : Bool
  store : SizeMap
  deriving Repr

/-- One iteration of the `sizewise` loop (processor.rs:122-153): pop a file
and upsert it, or — with the queue empty — break when discovery has finished
and keep polling otherwise. -/
def sizewiseStep (s : SwState) : StepOut SwState SizeMap :=
  match s.queue with
  | f :: rest =>
    StepOut.next ⟨rest, s.scannerFinished, mapInsert s.store f.size f⟩
  | [] =>
    if s.scannerFinished then StepOut.done s.store else StepOut.next s

/-- The `sizewise` polling loop driven by fuel; `none` means the fuel ran out
before the loop broke. -/
def sizewiseRun : Nat → SwState → Option SizeMap
  | 0, _ => none
  | fuel + 1, s =>
    match sizewiseStep s with
    | StepOut.done m => some m
    | StepOut.next s2 => sizewiseRun fuel s2

/-- State of the `hashwise` loop: the size store (whose files carry the
processed flag), the hash store built so far, and the size-stage-finished flag. -/
structure HwState where
  swStore : SizeMap
  hwStore : HashMapD
  swFinished : Bool
  deriving Repr

/-- Marking every member of a bucket processed (`file.sw_processed()`,
processor.rs:71; the flag is shared between the bucket and its clones). -/
def markProcessed (b : List FileInfo) : List FileInfo :=
  b.map (fun f => { f with swProcessed := true })

/-- One iteration of the `hashwise` loop (processor.rs:48-96): if no size
bucket qualifies, break when the size stage has finished and keep polling
otherwise; else process every qualifying bucket, marking its files processed,
and abort the stage if a digest fails (the code's `.expect`). -/
def hashwiseStep (strict : Bool) (seed : Int) (s : HwState) :
    StepOut HwState (Except String HashMapD) :=
  if (qualifying s.swStore).isEmpty then
    if s.swFinished then StepOut.done (Except.ok s.hwStore)
    else StepOut.next s
  else
    match (qualifying s.swStore).foldlM (fun hw kv =>
        if kv.2.length > 1 then processGroup strict seed hw kv.2
        else Except.ok hw) s.hwStore with
    | Except.ok hw =>
      StepOut.next
        ⟨s.swStore.map (fun kv =>
            if kv.2.length > 1 then (kv.1, markProcessed kv.2) else kv),
          hw, s.swFinished⟩
    | Except.error e => StepOut.done (Except.error e)

/-- The `hashwise` polling loop driven by fuel. -/
def hashwiseRun (strict : Bool) (seed : Int) :
    Nat → HwState → Option (Except String HashMapD)
  | 0, _ => none
  | fuel + 1, s =>
    match hashwiseStep strict seed s with
    | StepOut.done r => some r
    | StepOut.next s2 => hashwiseRun strict seed fuel s2

/-! Helper lemmas about bucket and store insertion. -/

/-- Paths of a bucket after `bucketInsert`: the old paths plus the inserted
file's path (which may already be there, in which case nothing changed). -/
theorem mem_bucketInsert_path (b : List FileInfo) (f : FileInfo) (p : String) :
    p ∈ (bucketInsert b f).map FileInfo.path ↔
      p ∈ b.map FileInfo.path ∨ p = f.path := by
  unfold bucketInsert
  by_cases h : b.any (fun g => g.path = f.path) = true
  · simp only [h, if_true]
    constructor
    · exact Or.inl
    · rintro (hp | rfl)
      · exact hp
      · rcases List.any_eq_true.mp h with ⟨g, hg, hgp⟩
        exact List.mem_map.mpr ⟨g, hg, by simpa using hgp⟩
  · simp [h]

/-- Inserting a file whose path already occurs in the bucket leaves the
bucket unchanged. -/
theorem bucketInsert_mem_path (b : List FileInfo) (f : FileInfo)
    (h : f.path ∈ b.map FileInfo.path) : bucketInsert b f = b := by
  unfold bucketInsert
  have : b.any (fun g => g.path = f.path) = true := by
    rcases List.mem_map.mp h with ⟨g, hg, hgp⟩
    exact List.any_eq_true.mpr ⟨g, hg, by simpa using hgp⟩
  simp [this]

/-- `bucketInsert` preserves path distinctness. -/
theorem bucketInsert_nodup (b : List FileInfo) (f : FileInfo)
    (h : (b.map FileInfo.path).Nodup) :
    ((bucketInsert b f).map FileInfo.path).Nodup := by
  unfold bucketInsert
  by_cases hc : b.any (fun g => g.path = f.path) = true
  · simpa [hc] using h
  · have hnot : f.path ∉ b.map FileInfo.path := by
      intro hmem
      rcases List.mem_map.mp hmem with ⟨g, hg, hgp⟩
      exact hc (List.any_eq_true.mpr ⟨g, hg, by simpa using hgp⟩)
    rw [if_neg hc]
    simp only [List.map_append, List.map_cons, List.map_nil]
    exact List.nodup_append.mpr ⟨h, List.nodup_singleton _, by
      simpa [List.disjoint_singleton] using hnot⟩

/-- Membership in a bucket after `bucketInsert`. -/
theorem mem_bucketInsert (b : List FileInfo) (f g : FileInfo)
    (h : g ∈ bucketInsert b f) : g ∈ b ∨ g = f := by
  unfold bucketInsert at h
  by_cases hc : b.any (fun x => x.path = f.path) = true
  · simp [hc] at h; exact Or.inl h
  · simp [hc] at h
    rcases h with h | h
    · exact Or.inl h
    · exact Or.inr h

/-- Looking up the key just inserted returns the upserted bucket. -/
theorem mapLookup_mapInsert_self {κ : Type} [DecidableEq κ]
    (m : List (κ × List FileInfo)) (k : κ) (f : FileInfo) :
    mapLookup (mapInsert m k f) k = bucketInsert (mapLookup m k) f := by
  induction m with
  | nil => simp [mapInsert, mapLookup, bucketInsert]
  | cons kv rest ih =>
    obtain ⟨k2, b⟩ := kv
    by_cases h : k = k2
    · subst h; simp [mapInsert, mapLookup]
    · simp [mapInsert, mapLookup, h, ih]

/-- Looking up a different key is unaffected by `mapInsert`. -/
theorem mapLookup_mapInsert_ne {κ : Type} [DecidableEq κ]
    (m : List (κ × List FileInfo)) (k k2 : κ) (f : FileInfo) (h : k2 ≠ k) :
    mapLookup (mapInsert m k f) k2 = mapLookup m k2 := by
  induction m with
  | nil => simp [mapInsert, mapLookup, h]
  | cons kv rest ih =>
    obtain ⟨k3, b⟩ := kv
    by_cases h3 : k = k3
    · subst h3; simp [mapInsert, mapLookup, h]
    · by_cases h4 : k2 = k3
      · subst h4; simp [mapInsert, mapLookup, h3]
      · simp [mapInsert, mapLookup, h3, h4, ih]

/-- Per-key membership after `mapInsert`, at the path level. -/
theorem mem_mapInsert_path {κ : Type} [DecidableEq κ]
    (m : List (κ × List FileInfo)) (k k2 : κ) (f : FileInfo) (p : String) :
    p ∈ (mapLookup (mapInsert m k f) k2).map FileInfo.path ↔
      p ∈ (mapLookup m k2).map FileInfo.path ∨ (k2 = k ∧ p = f.path) := by
  by_cases h : k2 = k
  · subst h
    rw [mapLookup_mapInsert_self, mem_bucketInsert_path]
    simp
  · rw [mapLookup_mapInsert_ne m k k2 f h]
    simp [h]

/-- Unfolding a build step for a file with no key. -/
theorem buildMap_cons_none {κ : Type} [DecidableEq κ] {keyf : FileInfo → Option κ}
    {f : FileInfo} (init : List (κ × List FileInfo)) (rest : List FileInfo)
    (hkf : keyf f = none) :
    buildMap keyf init (f :: rest) = buildMap keyf init rest := by
  simp [buildMap, hkf]

/-- Unfolding a build step for a file keyed at `k`. -/
theorem buildMap_cons_some {κ : Type} [DecidableEq κ] {keyf : FileInfo → Option κ}
    {f : FileInfo} {k : κ} (init : List (κ × List FileInfo)) (rest : List FileInfo)
    (hkf : keyf f = some k) :
    buildMap keyf init (f :: rest) = buildMap keyf (mapInsert init k f) rest := by
  simp [buildMap, hkf]

/-- Per-key membership in a bucket of a built store, at the path level: a path
is in the bucket for `k` iff it was there initially or some inserted file has
key `k` and that path. -/
theorem mem_buildMap_path {κ : Type} [DecidableEq κ] (keyf : FileInfo → Option κ)
    (l : List FileInfo) (init : List (κ × List FileInfo)) (k : κ) (p : String) :
    p ∈ (mapLookup (buildMap keyf init l) k).map FileInfo.path ↔
      p ∈ (mapLookup init k).map FileInfo.path ∨
        ∃ f ∈ l, keyf f = some k ∧ f.path = p := by
  induction l generalizing init with
  | nil => simp [buildMap]
  | cons f rest ih =>
    cases hkf : keyf f with
    | none =>
      rw [buildMap_cons_none init rest hkf, ih]
      simp [hkf]
    | some k2 =>
      rw [buildMap_cons_some init rest hkf, ih, mem_mapInsert_path]
      simp only [List.mem_cons]
      constructor
      · rintro ((hp | ⟨rfl, rfl⟩) | ⟨g, hg, hgk, hgp⟩)
        · exact Or.inl hp
        · exact Or.inr ⟨f, Or.inl rfl, hkf, rfl⟩
        · exact Or.inr ⟨g, Or.inr hg, hgk, hgp⟩
      · rintro (hp | ⟨g, (rfl | hg), hgk, hgp⟩)
        · exact Or.inl (Or.inl hp)
        · rw [hkf] at hgk
          rcases Option.some.inj hgk with rfl
          exact Or.inl (Or.inr ⟨rfl, hgp.symm⟩)
        · exact Or.inr ⟨g, hg, hgk, hgp⟩

/-- Case analysis on a key-bucket pair of `mapInsert m k f`: it is an untouched
pair of `m`, the pair of `m` whose bucket received `f`, or the fresh `(k, [f])`. -/
theorem mapInsert_cases {κ : Type} [DecidableEq κ]
    (m : List (κ × List FileInfo)) (k : κ) (f : FileInfo) (kv : κ × List FileInfo)
    (hkv : kv ∈ mapInsert m k f) :
    kv ∈ m ∨ (∃ b, (k, b) ∈ m ∧ kv = (k, bucketInsert b f)) ∨ kv = (k, [f]) := by
  induction m with
  | nil =>
    simp only [mapInsert, List.mem_singleton] at hkv
    exact Or.inr (Or.inr hkv)
  | cons kv0 rest ih =>
    obtain ⟨k0, b0⟩ := kv0
    by_cases hk : k = k0
    · subst hk
      rw [show mapInsert ((k, b0) :: rest) k f
            = (k, bucketInsert b0 f) :: rest by simp [mapInsert]] at hkv
      rcases List.mem_cons.mp hkv with rfl | h
      · exact Or.inr (Or.inl ⟨b0, List.mem_cons_self _ _, rfl⟩)
      · exact Or.inl (List.mem_cons_of_mem _ h)
    · rw [show mapInsert ((k0, b0) :: rest) k f
            = (k0, b0) :: mapInsert rest k f by simp [mapInsert, hk]] at hkv
      rcases List.mem_cons.mp hkv with rfl | h
      · exact Or.inl (List.mem_cons_self _ _)
      · rcases ih h with h1 | h2 | h3
        · exact Or.inl (List.mem_cons_of_mem _ h1)
        · rcases h2 with ⟨b, hb, hkv2⟩
          exact Or.inr (Or.inl ⟨b, List.mem_cons_of_mem _ hb, hkv2⟩)
        · exact Or.inr (Or.inr h3)

/-- Every member of every bucket of `mapInsert m k f` was a bucket member of
`m` or is `f` itself. -/
theorem mapInsert_members {κ : Type} [DecidableEq κ]
    (m : List (κ × List FileInfo)) (k : κ) (f : FileInfo) (S : List FileInfo)
    (hm : ∀ kv ∈ m, ∀ g ∈ kv.2, g ∈ S) (hf : f ∈ S) :
    ∀ kv ∈ mapInsert m k f, ∀ g ∈ kv.2, g ∈ S := by
  intro kv hkv g hg
  rcases mapInsert_cases m k f kv hkv with h1 | ⟨b, hb, rfl⟩ | h3
  · exact hm kv h1 g hg
  · rcases mem_bucketInsert b f g hg with h | rfl
    · exact hm (k, b) hb g h
    · exact hf
  · rw [h3] at hg
    rcases List.mem_singleton.mp hg with rfl
    exact hf

/-- Every member of every bucket of a built store was an initial bucket member
or one of the inserted files. -/
theorem buildMap_members {κ : Type} [DecidableEq κ] (keyf : FileInfo → Option κ)
    (l : List FileInfo) (init : List (κ × List FileInfo)) (S : List FileInfo)
    (hinit : ∀ kv ∈ init, ∀ g ∈ kv.2, g ∈ S) (hl : ∀ f ∈ l, f ∈ S) :
    ∀ kv ∈ buildMap keyf init l, ∀ g ∈ kv.2, g ∈ S := by
  induction l generalizing init with
  | nil => simpa [buildMap] using hinit
  | cons f rest ih =>
    cases hkf : keyf f with
    | none =>
      rw [buildMap_cons_none init rest hkf]
      exact ih init hinit (fun g hg => hl g (List.mem_cons_of_mem _ hg))
    | some k =>
      rw [buildMap_cons_some init rest hkf]
      exact ih (mapInsert init k f)
        (mapInsert_members init k f S hinit (hl f (List.mem_cons_self _ _)))
        (fun g hg => hl g (List.mem_cons_of_mem _ hg))

/-- Path distinctness of every bucket is preserved by `mapInsert`. -/
theorem mapInsert_nodup_paths {κ : Type} [DecidableEq κ]
    (m : List (κ × List FileInfo)) (k : κ) (f : FileInfo)
    (hm : ∀ kv ∈ m, (kv.2.map FileInfo.path).Nodup) :
    ∀ kv ∈ mapInsert m k f, (kv.2.map FileInfo.path).Nodup := by
  intro kv hkv
  rcases mapInsert_cases m k f kv hkv with h1 | ⟨b, hb, rfl⟩ | h3
  · exact hm kv h1
  · exact bucketInsert_nodup b f (hm (k, b) hb)
  · rw [h3]
    simp

/-- Path distinctness of every bucket holds in any built store. -/
theorem buildMap_nodup_paths {κ : Type} [DecidableEq κ] (keyf : FileInfo → Option κ)
    (l : List FileInfo) (init : List (κ × List FileInfo))
    (hinit : ∀ kv ∈ init, (kv.2.map FileInfo.path).Nodup) :
    ∀ kv ∈ buildMap keyf init l, (kv.2.map FileInfo.path).Nodup := by
  induction l generalizing init with
  | nil => simpa [buildMap] using hinit
  | cons f rest ih =>
    cases hkf : keyf f with
    | none =>
      rw [buildMap_cons_none init rest hkf]
      exact ih init hinit
    | some k =>
      rw [buildMap_cons_some init rest hkf]
      exact ih (mapInsert init k f) (mapInsert_nodup_paths init k f hinit)

/-- Building over a concatenation composes the two builds. -/
theorem buildMap_append {κ : Type} [DecidableEq κ] (keyf : FileInfo → Option κ)
    (init : List (κ × List FileInfo)) (l1 l2 : List FileInfo) :
    buildMap keyf init (l1 ++ l2) = buildMap keyf (buildMap keyf init l1) l2 := by
  simp [buildMap, List.foldl_append]

/-- Binding an Except error short circuits. -/
theorem error_bind {α β : Type} (e : String) (k : α → Except String β) :
    (Except.error e >>= k) = Except.error e := rfl

/-- Binding a successful Except continues with the value. -/
theorem ok_bind {α β : Type} (a : α) (k : α → Except String β) :
    (Except.ok a >>= k) = k a := rfl

/-- A successful pass of the hash stage over one group equals the pure build
keyed by the (necessarily succeeding) digests. -/
theorem processGroup_eq_buildMap (strict : Bool) (seed : Int)
    (group : List FileInfo) (hw hw2 : HashMapD)
    (h : processGroup strict seed hw group = Except.ok hw2) :
    hw2 = buildMap (fun f => (fileDigest strict seed f).toOption) hw group := by
  induction group generalizing hw with
  | nil =>
    simp only [processGroup, List.foldlM_nil] at h
    cases h
    simp [buildMap]
  | cons f rest ih =>
    rw [processGroup, List.foldlM_cons] at h
    cases hd : fileDigest strict seed f with
    | error e =>
      rw [hd, error_bind] at h
      exact Except.noConfusion h
    | ok d =>
      rw [hd, ok_bind] at h
      rw [buildMap_cons_some hw rest (by rw [hd]; rfl)]
      exact ih (mapInsert hw d f) h

/-- A successful run of the hash stage's group loop equals the pure build over
the concatenation of the processed groups. -/
theorem foldGroups_ok_eq (strict : Bool) (seed : Int) (gs : SizeMap)
    (init m : HashMapD)
    (hgs : ∀ kv ∈ gs, kv.2.length > 1)
    (h : gs.foldlM (fun hw kv =>
          if kv.2.length > 1 then processGroup strict seed hw kv.2
          else Except.ok hw) init = Except.ok m) :
    m = buildMap (fun f => (fileDigest strict seed f).toOption) init
          (gs.flatMap (fun kv => kv.2)) := by
  induction gs generalizing init with
  | nil =>
    simp only [List.foldlM_nil] at h
    cases h
    simp [buildMap]
  | cons kv rest ih =>
    rw [List.foldlM_cons] at h
    rw [if_pos (hgs kv (List.mem_cons_self _ _))] at h
    cases hpg : processGroup strict seed init kv.2 with
    | error e =>
      rw [hpg, error_bind] at h
      exact Except.noConfusion h
    | ok hw1 =>
      rw [hpg, ok_bind] at h
      have h1 := processGroup_eq_buildMap strict seed kv.2 init hw1 hpg
      have h2 := ih hw1 (fun kv2 hk => hgs kv2 (List.mem_cons_of_mem _ hk)) h
      rw [List.flatMap_cons, buildMap_append, ← h1]
      exact h2

/-- Every bucket listed by the hash-stage key scan has more than one member. -/
theorem qualifying_length (sw : SizeMap) :
    ∀ kv ∈ qualifying sw, kv.2.length > 1 := by
  intro kv hkv
  have := (List.mem_filter.mp hkv).2
  simpa using this

/-- Every bucket listed by the key scan is a bucket of the size store. -/
theorem qualifying_sub (sw : SizeMap) : ∀ kv ∈ qualifying sw, kv ∈ sw := by
  intro kv hkv
  exact (List.mem_filter.mp (List.mem_filter.mp hkv).1).1

/-- A successful run of the hash stage equals the pure build over the files of
the qualifying size buckets. -/
theorem hashwise_ok_eq (strict : Bool) (seed : Int) (sw : SizeMap) (m : HashMapD)
    (h : hashwise strict seed sw = Except.ok m) :
    m = buildMap (fun f => (fileDigest strict seed f).toOption) []
          ((qualifying sw).flatMap (fun kv => kv.2)) :=
  foldGroups_ok_eq strict seed (qualifying sw) [] m (qualifying_length sw) h

/-- The fold of comparison mode over the duplicates table, split into its two
accumulated fields. -/
theorem compFold_eq (t : HashMapD) (a : ComparisonResult) :
    t.foldl (fun acc kv =>
      { files_to_delete := acc.files_to_delete ++ groupDeletions kv.2
        warnings := acc.warnings ++ groupWarnings kv.2 }) a =
    { files_to_delete :=
        a.files_to_delete ++ (t.map (fun kv => groupDeletions kv.2)).flatten
      warnings := a.warnings ++ (t.map (fun kv => groupWarnings kv.2)).flatten } := by
  induction t generalizing a with
  | nil => simp
  | cons kv rest ih =>
    simp only [List.foldl_cons, List.map_cons, List.flatten_cons]
    rw [ih]
    simp

/-- Comparison mode, split into per-group contributions: the deletions and the
warnings are the concatenated contributions of the duplicate-table groups. -/
theorem comparison_mode_eq (files : List FileInfo) (seed : Int) :
    comparison_mode files seed =
      { files_to_delete :=
          ((comparisonTable files seed).map (fun kv => groupDeletions kv.2)).flatten
        warnings :=
          ((comparisonTable files seed).map (fun kv => groupWarnings kv.2)).flatten } := by
  unfold comparison_mode
  by_cases h : files.isEmpty
  · cases files with
    | nil => simp [comparisonTable, buildMap]
    | cons f rest => simp at h
  · rw [if_neg h, compFold_eq]
    simp

/-- Every member of a bucket of `mapInsert` carries that bucket's key, provided
the inserted file does. -/
theorem mapInsert_members_key {κ : Type} [DecidableEq κ] (keyf : FileInfo → Option κ)
    (m : List (κ × List FileInfo)) (k : κ) (f : FileInfo)
    (hm : ∀ kv ∈ m, ∀ g ∈ kv.2, keyf g = some kv.1) (hf : keyf f = some k) :
    ∀ kv ∈ mapInsert m k f, ∀ g ∈ kv.2, keyf g = some kv.1 := by
  intro kv hkv g hg
  rcases mapInsert_cases m k f kv hkv with h1 | ⟨b, hb, rfl⟩ | h3
  · exact hm kv h1 g hg
  · rcases mem_bucketInsert b f g hg with h | rfl
    · exact hm (k, b) hb g h
    · exact hf
  · rw [h3] at hg ⊢
    rcases List.mem_singleton.mp hg with rfl
    exact hf

/-- Every member of a bucket of a built store carries that bucket's key: in
particular a file whose key computation fails is in no bucket at all. -/
theorem buildMap_members_key {κ : Type} [DecidableEq κ] (keyf : FileInfo → Option κ)
    (l : List FileInfo) (init : List (κ × List FileInfo))
    (hinit : ∀ kv ∈ init, ∀ g ∈ kv.2, keyf g = some kv.1) :
    ∀ kv ∈ buildMap keyf init l, ∀ g ∈ kv.2, keyf g = some kv.1 := by
  induction l generalizing init with
  | nil => simpa [buildMap] using hinit
  | cons f rest ih =>
    cases hkf : keyf f with
    | none =>
      rw [buildMap_cons_none init rest hkf]
      exact ih init hinit
    | some k =>
      rw [buildMap_cons_some init rest hkf]
      exact ih (mapInsert init k f) (mapInsert_members_key keyf init k f hinit hkf)

/-- A successful pass over one group means every member's digest succeeded. -/
theorem processGroup_ok_digests (strict : Bool) (seed : Int)
    (group : List FileInfo) (hw hw2 : HashMapD)
    (h : processGroup strict seed hw group = Except.ok hw2) :
    ∀ f ∈ group, ∃ d, fileDigest strict seed f = Except.ok d := by
  induction group generalizing hw with
  | nil => intro f hf; exact absurd hf (List.not_mem_nil f)
  | cons f0 rest ih =>
    rw [processGroup, List.foldlM_cons] at h
    cases hd : fileDigest strict seed f0 with
    | error e =>
      rw [hd, error_bind] at h
      exact Except.noConfusion h
    | ok d =>
      rw [hd, ok_bind] at h
      intro f hf
      rcases List.mem_cons.mp hf with rfl | hf
      · exact ⟨d, hd⟩
      · exact ih (mapInsert hw d f0) h f hf

/-- Digest success over the group fold, from any starting store. -/
theorem foldGroups_ok_digests (strict : Bool) (seed : Int) (gs : SizeMap)
    (init m : HashMapD) (hgs : ∀ kv ∈ gs, kv.2.length > 1)
    (h : gs.foldlM (fun hw kv =>
          if kv.2.length > 1 then processGroup strict seed hw kv.2
          else Except.ok hw) init = Except.ok m) :
    ∀ kv ∈ gs, ∀ f ∈ kv.2, ∃ d, fileDigest strict seed f = Except.ok d := by
  induction gs generalizing init with
  | nil => intro kv hkv; exact absurd hkv (List.not_mem_nil kv)
  | cons kv0 rest ih =>
    rw [List.foldlM_cons] at h
    rw [if_pos (hgs kv0 (List.mem_cons_self _ _))] at h
    cases hpg : processGroup strict seed init kv0.2 with
    | error e =>
      rw [hpg, error_bind] at h
      exact Except.noConfusion h
    | ok hw1 =>
      rw [hpg, ok_bind] at h
      intro kv hkv f hf
      rcases List.mem_cons.mp hkv with rfl | hkv
      · exact processGroup_ok_digests strict seed kv.2 init hw1 hpg f hf
      · exact ih hw1 (fun kv2 hk => hgs kv2 (List.mem_cons_of_mem _ hk)) h kv hkv f hf

/-- A successful run of the hash stage means the digest of every file of every
qualifying bucket succeeded. -/
theorem hashwise_ok_digests (strict : Bool) (seed : Int) (sw : SizeMap)
    (m : HashMapD) (h : hashwise strict seed sw = Except.ok m) :
    ∀ kv ∈ qualifying sw, ∀ f ∈ kv.2,
      ∃ d, fileDigest strict seed f = Except.ok d := by
  rw [hashwise] at h
  exact foldGroups_ok_digests strict seed (qualifying sw) [] m (qualifying_length sw) h

/-! Claim theorems. -/

/-- C10: the maximum-path-display-width counter only ever increases: after a
call of `compare_and_update_max_path_len` with prior value `v` and argument
`n`, the counter equals `max v n`, so no call decreases it. -/
theorem max_path_len_monotone (v n : Nat) :
    compare_and_update_max_path_len v n = max v n ∧
      v ≤ compare_and_update_max_path_len v n := by
  unfold compare_and_update_max_path_len
  constructor
  · split <;> omega
  · split <;> omega

/-- C9: on empty input — no files in the shared collection and the
discovery-finished flag set — the size stage's loop breaks at once with an
empty size map; the hash stage's loop breaks at once with an empty hash map
once the size-stage-finished flag is set, while with the flag still unset it
keeps polling; so neither stage polls indefinitely and both maps are empty. -/
theorem empty_input_terminates :
    sizewiseStep ⟨[], true, []⟩ = StepOut.done [] ∧
    sizewiseRun 1 ⟨[], true, []⟩ = some [] ∧
    (∀ (strict : Bool) (seed : Int),
      hashwiseStep strict seed ⟨[], [], true⟩ = StepOut.done (Except.ok []) ∧
      hashwiseRun strict seed 1 ⟨[], [], true⟩ = some (Except.ok []) ∧
      hashwiseStep strict seed ⟨[], [], false⟩ = StepOut.next ⟨[], [], false⟩) :=
  ⟨rfl, rfl, fun _ _ => ⟨rfl, rfl, rfl⟩⟩

/-- Concrete sample files used to instantiate the claim theorems. -/
def sampleA : FileInfo := ⟨"a", 1, none, some [0], false⟩

/-- A second sample file with the same size and content but a distinct path. -/
def sampleB : FileInfo := ⟨"b", 1, none, some [0], false⟩

/-- A staging-tagged sample file. -/
def sampleStaging : FileInfo := ⟨"a", 1, some FileSource.Staging, some [0], false⟩

/-- A target-tagged sample file with the same content. -/
def sampleTarget : FileInfo := ⟨"b", 1, some FileSource.Target, some [0], false⟩

/-- Another target-tagged sample file with the same content. -/
def sampleTarget2 : FileInfo := ⟨"c", 1, some FileSource.Target, some [0], false⟩

/-- An unreadable sample file (its digest computation fails). -/
def sampleBadA : FileInfo := ⟨"a", 7, none, none, false⟩

/-- A second unreadable sample file of the same size. -/
def sampleBadB : FileInfo := ⟨"b", 7, none, none, false⟩

/-- C4: no two members of the same group share a path, in the size store, in
any hash store produced by the hash stage, and in comparison mode's duplicates
table; moreover inserting a file whose path already occurs in the target
bucket leaves the bucket unchanged. -/
theorem group_paths_unique :
    (∀ (b : List FileInfo) (f : FileInfo),
        f.path ∈ b.map FileInfo.path → bucketInsert b f = b) ∧
    (∀ (files : List FileInfo) (kv : Nat × List FileInfo),
        kv ∈ sizewise files → (kv.2.map FileInfo.path).Nodup) ∧
    (∀ (strict : Bool) (seed : Int) (sw : SizeMap) (m : HashMapD),
        hashwise strict seed sw = Except.ok m →
        ∀ kv ∈ m, (kv.2.map FileInfo.path).Nodup) ∧
    (∀ (files : List FileInfo) (seed : Int) (kv : Digest × List FileInfo),
        kv ∈ comparisonTable files seed → (kv.2.map FileInfo.path).Nodup) := by
  refine ⟨bucketInsert_mem_path, ?_, ?_, ?_⟩
  · intro files kv hkv
    exact buildMap_nodup_paths _ files [] (by simp) kv hkv
  · intro strict seed sw m hm kv hkv
    rw [hashwise_ok_eq strict seed sw m hm] at hkv
    exact buildMap_nodup_paths _ _ [] (by simp) kv hkv
  · intro files seed kv hkv
    exact buildMap_nodup_paths _ files [] (by simp) kv hkv

/-- Witness for C4 at concrete inputs: re-inserting a file with an occupied
path changes nothing, and the size, hash and comparison buckets built from the
sample files have distinct paths. -/
theorem group_paths_unique_witness :
    (sampleA.path ∈ [sampleA].map FileInfo.path ∧
      bucketInsert [sampleA] sampleA = [sampleA]) ∧
    ((1, [sampleA, sampleB]) ∈ sizewise [sampleA, sampleB] ∧
      (((1 : Nat), [sampleA, sampleB]).2.map FileInfo.path).Nodup) ∧
    (hashwise false 0 (sizewise [sampleA, sampleB])
        = Except.ok [(([0], 0), [sampleA, sampleB])] ∧
      ((([0], 0), [sampleA, sampleB]) : Digest × List FileInfo)
        ∈ [((([0], 0) : Digest), [sampleA, sampleB])] ∧
      (((([0], 0) : Digest), [sampleA, sampleB]).2.map FileInfo.path).Nodup) ∧
    (((([0], 0) : Digest), [sampleA, sampleB]) ∈ comparisonTable [sampleA, sampleB] 0 ∧
      (((([0], 0) : Digest), [sampleA, sampleB]).2.map FileInfo.path).Nodup) := by
  refine ⟨⟨by decide, group_paths_unique.1 [sampleA] sampleA (by decide)⟩,
    ⟨by decide, group_paths_unique.2.1 [sampleA, sampleB] (1, [sampleA, sampleB]) (by decide)⟩,
    ⟨by rfl, by decide,
      group_paths_unique.2.2.1 false 0 (sizewise [sampleA, sampleB])
        [(([0], 0), [sampleA, sampleB])] (by rfl)
        (([0], 0), [sampleA, sampleB]) (by decide)⟩,
    ⟨by decide,
      group_paths_unique.2.2.2 [sampleA, sampleB] 0
        (([0], 0), [sampleA, sampleB]) (by decide)⟩⟩

/-- C2: every file in the `files_to_delete` field of the result of
`comparison_mode` is one of the input files and carries the Staging source
tag; a Target-tagged or untagged file is never deleted. -/
theorem files_to_delete_staging_only (files : List FileInfo) (seed : Int)
    (f : FileInfo) (hf : f ∈ (comparison_mode files seed).files_to_delete) :
    f ∈ files ∧ f.source = some FileSource.Staging := by
  rw [comparison_mode_eq] at hf
  simp only [List.mem_flatten, List.mem_map] at hf
  obtain ⟨l, ⟨kv, hkv, rfl⟩, hfl⟩ := hf
  have hstag : f ∈ stagingOf kv.2 := by
    unfold groupDeletions at hfl
    by_cases hc : ¬ (stagingOf kv.2).isEmpty ∧ ¬ (targetOf kv.2).isEmpty
    · rwa [if_pos hc] at hfl
    · rw [if_neg hc] at hfl
      exact absurd hfl (List.not_mem_nil f)
  have hmf := List.mem_filter.mp hstag
  refine ⟨?_, by simpa using hmf.2⟩
  exact buildMap_members _ files [] files (by simp) (fun x hx => hx) kv hkv f hmf.1

/-- Witness for C2: with one staging and one target copy of the same content,
the staging file is deleted, is an input file, and is Staging-tagged. -/
theorem files_to_delete_staging_only_witness :
    sampleStaging ∈ (comparison_mode [sampleStaging, sampleTarget] 0).files_to_delete ∧
    (sampleStaging ∈ [sampleStaging, sampleTarget] ∧
      sampleStaging.source = some FileSource.Staging) :=
  ⟨by decide,
    files_to_delete_staging_only [sampleStaging, sampleTarget] 0 sampleStaging (by decide)⟩

/-- C1: for every hash group of comparison mode's duplicates table, if the
group has a Staging-tagged and a Target-tagged member then every
Staging-tagged member is in `files_to_delete`; an all-Staging or all-Target
group contributes nothing; and for one staging and one target file of
identical content, `files_to_delete` is exactly the staging file. -/
theorem comparison_groups_deletions :
    (∀ (files : List FileInfo) (seed : Int) (kv : Digest × List FileInfo),
        kv ∈ comparisonTable files seed →
        (∃ g ∈ kv.2, g.source = some FileSource.Staging) →
        (∃ g ∈ kv.2, g.source = some FileSource.Target) →
        ∀ f ∈ kv.2, f.source = some FileSource.Staging →
          f ∈ (comparison_mode files seed).files_to_delete) ∧
    (∀ (files : List FileInfo) (seed : Int) (kv : Digest × List FileInfo),
        kv ∈ comparisonTable files seed →
        ((∀ g ∈ kv.2, g.source = some FileSource.Staging) ∨
          (∀ g ∈ kv.2, g.source = some FileSource.Target)) →
        groupDeletions kv.2 = []) ∧
    (∀ (seed : Int) (c : List Nat) (p q : String), p ≠ q →
        (comparison_mode
            [⟨p, c.length, some FileSource.Staging, some c, false⟩,
             ⟨q, c.length, some FileSource.Target, some c, false⟩]
            seed).files_to_delete
          = [⟨p, c.length, some FileSource.Staging, some c, false⟩]) := by
  refine ⟨?_, ?_, ?_⟩
  · intro files seed kv hkv hS hT f hf hfsrc
    rw [comparison_mode_eq]
    simp only [List.mem_flatten, List.mem_map]
    refine ⟨groupDeletions kv.2, ⟨kv, hkv, rfl⟩, ?_⟩
    unfold groupDeletions
    rw [if_pos ?_]
    · exact List.mem_filter.mpr ⟨hf, by simpa using hfsrc⟩
    · constructor
      · obtain ⟨g, hg, hgs⟩ := hS
        intro hemp
        have hmem : g ∈ stagingOf kv.2 := List.mem_filter.mpr ⟨hg, by simpa using hgs⟩
        rw [List.isEmpty_iff] at hemp
        rw [hemp] at hmem
        exact List.not_mem_nil g hmem
      · obtain ⟨g, hg, hgs⟩ := hT
        intro hemp
        have hmem : g ∈ targetOf kv.2 := List.mem_filter.mpr ⟨hg, by simpa using hgs⟩
        rw [List.isEmpty_iff] at hemp
        rw [hemp] at hmem
        exact List.not_mem_nil g hmem
  · intro files seed kv hkv hall
    unfold groupDeletions
    rcases hall with hS | hT
    · have ht : targetOf kv.2 = [] := by
        unfold targetOf
        rw [List.filter_eq_nil_iff]
        intro a ha
        simp [hS a ha]
      rw [if_neg]
      intro hc
      rw [ht] at hc
      exact hc.2 rfl
    · have hs : stagingOf kv.2 = [] := by
        unfold stagingOf
        rw [List.filter_eq_nil_iff]
        intro a ha
        simp [hT a ha]
      rw [if_neg]
      intro hc
      rw [hs] at hc
      exact hc.1 rfl
  · intro seed c p q hpq
    have hbuck : bucketInsert
        [⟨p, c.length, some FileSource.Staging, some c, false⟩]
        ⟨q, c.length, some FileSource.Target, some c, false⟩
        = [⟨p, c.length, some FileSource.Staging, some c, false⟩,
           ⟨q, c.length, some FileSource.Target, some c, false⟩] := by
      unfold bucketInsert
      rw [if_neg]
      · rfl
      · simp [hpq]
    have htab : comparisonTable
        [⟨p, c.length, some FileSource.Staging, some c, false⟩,
         ⟨q, c.length, some FileSource.Target, some c, false⟩] seed
        = [((c, seed),
            [⟨p, c.length, some FileSource.Staging, some c, false⟩,
             ⟨q, c.length, some FileSource.Target, some c, false⟩])] := by
      show mapInsert
          [((c, seed), [⟨p, c.length, some FileSource.Staging, some c, false⟩])]
          (c, seed) ⟨q, c.length, some FileSource.Target, some c, false⟩ = _
      unfold mapInsert
      rw [if_pos rfl, hbuck]
    rw [comparison_mode_eq, htab]
    simp only [List.map_cons, List.map_nil, List.flatten_cons, List.flatten_nil,
      List.append_nil]
    unfold groupDeletions
    rw [if_pos]
    · rfl
    · exact ⟨by simp [stagingOf], by simp [targetOf]⟩

/-- Witness for C1 at concrete inputs: the mixed group deletes its staging
member, the all-target group contributes nothing, and the one-staging
one-target instance deletes exactly the staging file. -/
theorem comparison_groups_deletions_witness :
    ((Prod.mk (([0], 0) : Digest) [sampleStaging, sampleTarget]
        ∈ comparisonTable [sampleStaging, sampleTarget] 0) ∧
      (∃ g ∈ [sampleStaging, sampleTarget], g.source = some FileSource.Staging) ∧
      (∃ g ∈ [sampleStaging, sampleTarget], g.source = some FileSource.Target) ∧
      (sampleStaging ∈ [sampleStaging, sampleTarget]) ∧
      sampleStaging.source = some FileSource.Staging ∧
      (sampleStaging ∈ (comparison_mode [sampleStaging, sampleTarget] 0).files_to_delete) ∧
    ((Prod.mk (([0], 0) : Digest) [sampleTarget, sampleTarget2]
        ∈ comparisonTable [sampleTarget, sampleTarget2] 0) ∧
      (∀ g ∈ [sampleTarget, sampleTarget2], g.source = some FileSource.Target) ∧
      groupDeletions [sampleTarget, sampleTarget2] = []) ∧
    ((("a" : String) ≠ "b") ∧
      (comparison_mode
          [⟨"a", [(0 : Nat)].length, some FileSource.Staging, some [0], false⟩,
           ⟨"b", [(0 : Nat)].length, some FileSource.Target, some [0], false⟩]
          0).files_to_delete
        = [⟨"a", [(0 : Nat)].length, some FileSource.Staging, some [0], false⟩])) := by
  refine ⟨by decide, by decide, by decide, by decide, by decide, ?_,
    ⟨by decide, by decide, ?_⟩, by decide, ?_⟩
  · exact comparison_groups_deletions.1 [sampleStaging, sampleTarget] 0
      (Prod.mk (([0], 0) : Digest) [sampleStaging, sampleTarget]) (by decide)
      (by decide) (by decide) sampleStaging (by decide) (by decide)
  · exact comparison_groups_deletions.2.1 [sampleTarget, sampleTarget2] 0
      (Prod.mk (([0], 0) : Digest) [sampleTarget, sampleTarget2]) (by decide)
      (Or.inr (by decide))
  · exact comparison_groups_deletions.2.2 0 [0] "a" "b" (by decide)

/-- Counterexample for C5: two identical Target-tagged files with no staging
copy produce an empty `files_to_delete` AND an empty `warnings` list — the
claimed warning reporting 2 target-side instances is absent, because the
warning logic (processor.rs:211-220) sits inside the branch requiring a
Staging member as well (processor.rs:207). -/
theorem two_target_duplicates_counterexample :
    comparison_mode [sampleTarget, sampleTarget2] 0
        = { files_to_delete := [], warnings := [] } ∧
      (comparison_mode [sampleTarget, sampleTarget2] 0).warnings.count
        "Warning: Hash has 2 instances in target folder:" = 0 := by
  exact ⟨by decide, by decide⟩

/-- Amended C5: for two Target-tagged files of identical content and no
staging copy, `files_to_delete` is empty and no warning at all is emitted —
the redundant-target warning only fires for groups that also contain a
Staging member. -/
theorem two_target_duplicates_no_warning (seed : Int) (c : List Nat)
    (p q : String) (hpq : p ≠ q) :
    comparison_mode
        [⟨p, c.length, some FileSource.Target, some c, false⟩,
         ⟨q, c.length, some FileSource.Target, some c, false⟩] seed
      = { files_to_delete := [], warnings := [] } := by
  have hbuck : bucketInsert
      [⟨p, c.length, some FileSource.Target, some c, false⟩]
      ⟨q, c.length, some FileSource.Target, some c, false⟩
      = [⟨p, c.length, some FileSource.Target, some c, false⟩,
         ⟨q, c.length, some FileSource.Target, some c, false⟩] := by
    unfold bucketInsert
    rw [if_neg]
    · rfl
    · simp [hpq]
  have htab : comparisonTable
      [⟨p, c.length, some FileSource.Target, some c, false⟩,
       ⟨q, c.length, some FileSource.Target, some c, false⟩] seed
      = [((c, seed),
          [⟨p, c.length, some FileSource.Target, some c, false⟩,
           ⟨q, c.length, some FileSource.Target, some c, false⟩])] := by
    show mapInsert
        [((c, seed), [⟨p, c.length, some FileSource.Target, some c, false⟩])]
        (c, seed) ⟨q, c.length, some FileSource.Target, some c, false⟩ = _
    unfold mapInsert
    rw [if_pos rfl, hbuck]
  have hd : groupDeletions
      [⟨p, c.length, some FileSource.Target, some c, false⟩,
       ⟨q, c.length, some FileSource.Target, some c, false⟩] = [] := by
    unfold groupDeletions
    rw [if_neg]
    intro hc
    exact hc.1 rfl
  have hw : groupWarnings
      [⟨p, c.length, some FileSource.Target, some c, false⟩,
       ⟨q, c.length, some FileSource.Target, some c, false⟩] = [] := by
    unfold groupWarnings
    rw [if_neg]
    intro hc
    exact hc.1 rfl
  rw [comparison_mode_eq, htab]
  simp [hd, hw]

/-- Witness for the amended C5 at concrete paths. -/
theorem two_target_duplicates_no_warning_witness :
    (("a" : String) ≠ "b") ∧
    comparison_mode
        [⟨"a", [(0 : Nat)].length, some FileSource.Target, some [0], false⟩,
         ⟨"b", [(0 : Nat)].length, some FileSource.Target, some [0], false⟩] 0
      = { files_to_delete := [], warnings := [] } :=
  ⟨by decide, two_target_duplicates_no_warning 0 [0] "a" "b" (by decide)⟩

/-- An unreadable file of 282,624 bytes. -/
def sampleBig1 : FileInfo := ⟨"a", 282624, none, none, false⟩

/-- An unreadable file of 1,720,320 bytes. -/
def sampleBig2 : FileInfo := ⟨"b", 1720320, none, none, false⟩

/-- C6: a size bucket with exactly one member never qualifies for the hash
stage; every file in a hash map produced by a successful `hashwise` run came
from a size bucket with more than one member; and for files of 282,624 and
1,720,320 bytes the size stage makes two distinct groups and the hash map
stays empty — their digests are never computed (both sample files are
unreadable, so any digest attempt would have aborted the stage). -/
theorem singleton_buckets_skipped :
    (∀ (sw : SizeMap) (kv : Nat × List FileInfo),
        kv ∈ sw → kv.2.length = 1 → kv ∉ qualifying sw) ∧
    (∀ (strict : Bool) (seed : Int) (sw : SizeMap) (m : HashMapD),
        hashwise strict seed sw = Except.ok m →
        ∀ kv ∈ m, ∀ g ∈ kv.2, ∃ kv0 ∈ sw, g ∈ kv0.2 ∧ kv0.2.length > 1) ∧
    (∀ (strict : Bool) (seed : Int),
        (sizewise [sampleBig1, sampleBig2]).length = 2 ∧
        hashwise strict seed (sizewise [sampleBig1, sampleBig2]) = Except.ok []) := by
  refine ⟨?_, ?_, ?_⟩
  · intro sw kv _ hlen hq
    have := qualifying_length sw kv hq
    omega
  · intro strict seed sw m hm kv hkv g hg
    rw [hashwise_ok_eq strict seed sw m hm] at hkv
    have hmem := buildMap_members _ ((qualifying sw).flatMap (fun kv => kv.2)) []
      ((qualifying sw).flatMap (fun kv => kv.2)) (by simp) (fun x hx => hx) kv hkv g hg
    rcases List.mem_flatMap.mp hmem with ⟨kv0, hkv0, hg0⟩
    exact ⟨kv0, qualifying_sub sw kv0 hkv0, hg0, qualifying_length sw kv0 hkv0⟩
  · intro strict seed
    have hq : qualifying (sizewise [sampleBig1, sampleBig2]) = [] := by decide
    refine ⟨by decide, ?_⟩
    rw [hashwise, hq]
    rfl

/-- Witness for C6 at concrete inputs: a singleton bucket is not scanned, a
hash-map member traces back to a multi-member size bucket, and the two
different-size files yield two size groups and an empty hash map. -/
theorem singleton_buckets_skipped_witness :
    ((Prod.mk (7 : Nat) [sampleBadA] ∈ [(Prod.mk (7 : Nat) [sampleBadA])]) ∧
      ([sampleBadA].length = 1) ∧
      (Prod.mk (7 : Nat) [sampleBadA] ∉ qualifying [(Prod.mk (7 : Nat) [sampleBadA])])) ∧
    ((hashwise false 0 (sizewise [sampleA, sampleB])
        = Except.ok [(([0], 0), [sampleA, sampleB])]) ∧
      (Prod.mk (([0], 0) : Digest) [sampleA, sampleB]
        ∈ [(Prod.mk (([0], 0) : Digest) [sampleA, sampleB])]) ∧
      (sampleA ∈ [sampleA, sampleB]) ∧
      (∃ kv0 ∈ sizewise [sampleA, sampleB], sampleA ∈ kv0.2 ∧ kv0.2.length > 1)) ∧
    ((sizewise [sampleBig1, sampleBig2]).length = 2 ∧
      hashwise true 5 (sizewise [sampleBig1, sampleBig2]) = Except.ok []) := by
  refine ⟨⟨by decide, by decide, ?_⟩, ⟨by rfl, by decide, by decide, ?_⟩, ?_⟩
  · exact singleton_buckets_skipped.1 [(Prod.mk (7 : Nat) [sampleBadA])]
      (Prod.mk (7 : Nat) [sampleBadA]) (by decide) (by decide)
  · exact singleton_buckets_skipped.2.1 false 0 (sizewise [sampleA, sampleB])
      [(([0], 0), [sampleA, sampleB])] (by rfl)
      (Prod.mk (([0], 0) : Digest) [sampleA, sampleB]) (by decide)
      sampleA (by decide)
  · exact singleton_buckets_skipped.2.2 true 5

/-- When every digest in a group succeeds, the group pass of the hash stage
succeeds and equals the pure build over the group. -/
theorem processGroup_all_ok (strict : Bool) (seed : Int)
    (group : List FileInfo) (hw : HashMapD)
    (h : ∀ f ∈ group, ∃ d, fileDigest strict seed f = Except.ok d) :
    processGroup strict seed hw group
      = Except.ok (buildMap (fun f => (fileDigest strict seed f).toOption) hw group) := by
  induction group generalizing hw with
  | nil => rfl
  | cons f rest ih =>
    obtain ⟨d, hd⟩ := h f (List.mem_cons_self _ _)
    have hstep : processGroup strict seed hw (f :: rest)
        = processGroup strict seed (mapInsert hw d f) rest := by
      unfold processGroup
      rw [List.foldlM_cons]
      show (match fileDigest strict seed f with
            | Except.ok h => Except.ok (mapInsert hw h f)
            | Except.error e => Except.error e) >>= _ = _
      rw [hd]
      rfl
    rw [hstep, ih (mapInsert hw d f) (fun g hg => h g (List.mem_cons_of_mem _ hg))]
    rw [buildMap_cons_some hw rest
      (show (fileDigest strict seed f).toOption = some d by rw [hd]; rfl)]

/-- C7: two files of identical size whose first 16,384 bytes agree but whose
contents differ land in one hash group under prefix (non-strict) mode and in
two distinct hash groups under strict mode, for any seed. -/
theorem prefix_vs_strict_modes (seed : Int) (p q : String) (c1 c2 : List Nat)
    (hpq : p ≠ q) (hlen : c1.length = c2.length)
    (hpre : c1.take initPagesBytes = c2.take initPagesBytes) (hne : c1 ≠ c2) :
    hashwise false seed (sizewise
        [⟨p, c1.length, none, some c1, false⟩,
         ⟨q, c2.length, none, some c2, false⟩])
      = Except.ok [((c1.take initPagesBytes, seed),
          [⟨p, c1.length, none, some c1, false⟩,
           ⟨q, c2.length, none, some c2, false⟩])] ∧
    hashwise true seed (sizewise
        [⟨p, c1.length, none, some c1, false⟩,
         ⟨q, c2.length, none, some c2, false⟩])
      = Except.ok [((c1, seed), [⟨p, c1.length, none, some c1, false⟩]),
          ((c2, seed), [⟨q, c2.length, none, some c2, false⟩])] := by
  have hbuck : bucketInsert [⟨p, c1.length, none, some c1, false⟩]
      ⟨q, c2.length, none, some c2, false⟩
      = [⟨p, c1.length, none, some c1, false⟩,
         ⟨q, c2.length, none, some c2, false⟩] := by
    unfold bucketInsert
    rw [if_neg]
    · rfl
    · simp [hpq]
  have hsw : sizewise [⟨p, c1.length, none, some c1, false⟩,
      ⟨q, c2.length, none, some c2, false⟩]
      = [(c1.length, [⟨p, c1.length, none, some c1, false⟩,
          ⟨q, c2.length, none, some c2, false⟩])] := by
    show mapInsert [(c1.length, [⟨p, c1.length, none, some c1, false⟩])]
        c2.length ⟨q, c2.length, none, some c2, false⟩ = _
    unfold mapInsert
    rw [if_pos hlen.symm, hbuck]
  have hrun : ∀ strict : Bool,
      hashwise strict seed (sizewise [⟨p, c1.length, none, some c1, false⟩,
        ⟨q, c2.length, none, some c2, false⟩])
      = processGroup strict seed []
          [⟨p, c1.length, none, some c1, false⟩,
           ⟨q, c2.length, none, some c2, false⟩] := by
    intro strict
    unfold hashwise
    rw [hsw]
    rw [show qualifying [(c1.length, [⟨p, c1.length, none, some c1, false⟩,
          ⟨q, c2.length, none, some c2, false⟩])]
        = [(c1.length, [⟨p, c1.length, none, some c1, false⟩,
            ⟨q, c2.length, none, some c2, false⟩])] from rfl]
    simp only [List.foldlM_cons, List.foldlM_nil]
    rw [if_pos (by simp : ((c1.length, [⟨p, c1.length, none, some c1, false⟩,
        ⟨q, c2.length, none, some c2, false⟩]) : Nat × List FileInfo).2.length > 1)]
    rw [bind_pure]
  constructor
  · rw [hrun false]
    rw [processGroup_all_ok false seed _ [] ?hall]
    case hall =>
      intro g hg
      rcases List.mem_cons.mp hg with rfl | hg
      · exact ⟨(c1.take initPagesBytes, seed), rfl⟩
      rcases List.mem_cons.mp hg with rfl | hg
      · exact ⟨(c2.take initPagesBytes, seed), rfl⟩
      · exact absurd hg (List.not_mem_nil g)
    rw [buildMap_cons_some [] _
      (show (fileDigest false seed ⟨p, c1.length, none, some c1, false⟩).toOption
        = some (c1.take initPagesBytes, seed) from rfl)]
    rw [buildMap_cons_some _ []
      (show (fileDigest false seed ⟨q, c2.length, none, some c2, false⟩).toOption
        = some (c2.take initPagesBytes, seed) from rfl)]
    show Except.ok (mapInsert [((c1.take initPagesBytes, seed),
        [⟨p, c1.length, none, some c1, false⟩])]
        (c2.take initPagesBytes, seed) ⟨q, c2.length, none, some c2, false⟩) = _
    unfold mapInsert
    rw [if_pos (by rw [hpre]), hbuck]
  · rw [hrun true]
    rw [processGroup_all_ok true seed _ [] ?hall2]
    case hall2 =>
      intro g hg
      rcases List.mem_cons.mp hg with rfl | hg
      · exact ⟨(c1, seed), rfl⟩
      rcases List.mem_cons.mp hg with rfl | hg
      · exact ⟨(c2, seed), rfl⟩
      · exact absurd hg (List.not_mem_nil g)
    rw [buildMap_cons_some [] _
      (show (fileDigest true seed ⟨p, c1.length, none, some c1, false⟩).toOption
        = some (c1, seed) from rfl)]
    rw [buildMap_cons_some _ []
      (show (fileDigest true seed ⟨q, c2.length, none, some c2, false⟩).toOption
        = some (c2, seed) from rfl)]
    show Except.ok (mapInsert [((c1, seed),
        [⟨p, c1.length, none, some c1, false⟩])]
        (c2, seed) ⟨q, c2.length, none, some c2, false⟩) = _
    unfold mapInsert
    rw [if_neg (fun hkk => hne ((congrArg Prod.fst hkk).symm))]
    rfl

/-- A 16,385-byte sample content. -/
def sampleLong1 : List Nat := List.replicate 16385 0

/-- A sample content of the same length agreeing with `sampleLong1` on the
first 16,384 bytes and differing at the last one. -/
def sampleLong2 : List Nat := List.replicate 16384 0 ++ [1]

/-- Witness for C7 at concrete contents: same length, same 16 KiB prefix,
different tails; one group in prefix mode, two groups in strict mode. -/
theorem prefix_vs_strict_modes_witness :
    (("a" : String) ≠ "b") ∧
    sampleLong1.length = sampleLong2.length ∧
    sampleLong1.take initPagesBytes = sampleLong2.take initPagesBytes ∧
    sampleLong1 ≠ sampleLong2 ∧
    (hashwise false 3 (sizewise
        [⟨"a", sampleLong1.length, none, some sampleLong1, false⟩,
         ⟨"b", sampleLong2.length, none, some sampleLong2, false⟩])
      = Except.ok [((sampleLong1.take initPagesBytes, 3),
          [⟨"a", sampleLong1.length, none, some sampleLong1, false⟩,
           ⟨"b", sampleLong2.length, none, some sampleLong2, false⟩])] ∧
    hashwise true 3 (sizewise
        [⟨"a", sampleLong1.length, none, some sampleLong1, false⟩,
         ⟨"b", sampleLong2.length, none, some sampleLong2, false⟩])
      = Except.ok [((sampleLong1, 3),
          [⟨"a", sampleLong1.length, none, some sampleLong1, false⟩]),
          ((sampleLong2, 3),
          [⟨"b", sampleLong2.length, none, some sampleLong2, false⟩])]) := by
  have hlen : sampleLong1.length = sampleLong2.length := by
    unfold sampleLong1 sampleLong2
    rw [List.length_replicate, List.length_append, List.length_replicate]
    rfl
  have hpre : sampleLong1.take initPagesBytes = sampleLong2.take initPagesBytes := by
    unfold sampleLong1 sampleLong2 initPagesBytes
    rw [List.take_replicate]
    rw [show (16384 ⊓ 16385 : Nat) = 16384 by omega]
    rw [List.take_left' (by rw [List.length_replicate])]
  have hne : sampleLong1 ≠ sampleLong2 := by
    unfold sampleLong1 sampleLong2
    intro h
    have h0 := congrArg (fun l => l[16384]?) h
    simp only [List.getElem?_replicate] at h0
    rw [List.getElem?_append_right (by rw [List.length_replicate])] at h0
    rw [List.length_replicate] at h0
    rw [if_pos (by omega)] at h0
    rw [show (16384 - 16384 : Nat) = 0 from rfl] at h0
    have h1 : (0 : Nat) = 1 := Option.some.inj h0
    omega
  exact ⟨by decide, hlen, hpre, hne,
    prefix_vs_strict_modes 3 "a" "b" sampleLong1 sampleLong2 (by decide) hlen hpre hne⟩

/-- C8: the pipeline is deterministic up to grouping.  Any two size-stage runs
over permutations of the same file list give size groups with identical
path-set membership, and a hash-stage run compared with a run under any other
insertion schedule (a permutation of the qualifying files) gives hash groups
with identical path-set membership, for the same mode and seed. -/
theorem pipeline_deterministic :
    (∀ (files1 files2 : List FileInfo), files1.Perm files2 →
      ∀ (s : Nat) (p : String),
        (p ∈ (mapLookup (sizewise files1) s).map FileInfo.path ↔
          p ∈ (mapLookup (sizewise files2) s).map FileInfo.path)) ∧
    (∀ (strict : Bool) (seed : Int) (sw : SizeMap) (m : HashMapD),
      hashwise strict seed sw = Except.ok m →
      ∀ (sched : List FileInfo),
        sched.Perm ((qualifying sw).flatMap (fun kv => kv.2)) →
        ∀ (k : Digest) (p : String),
          (p ∈ (mapLookup m k).map FileInfo.path ↔
            p ∈ (mapLookup (buildMap
                (fun f => (fileDigest strict seed f).toOption) [] sched) k).map
              FileInfo.path)) := by
  constructor
  · intro files1 files2 hperm s p
    unfold sizewise
    rw [mem_buildMap_path, mem_buildMap_path]
    constructor
    · rintro (hp | ⟨g, hg, hk, hp⟩)
      · exact absurd hp (by simp [mapLookup])
      · exact Or.inr ⟨g, hperm.mem_iff.mp hg, hk, hp⟩
    · rintro (hp | ⟨g, hg, hk, hp⟩)
      · exact absurd hp (by simp [mapLookup])
      · exact Or.inr ⟨g, hperm.mem_iff.mpr hg, hk, hp⟩
  · intro strict seed sw m hm sched hperm k p
    rw [hashwise_ok_eq strict seed sw m hm]
    rw [mem_buildMap_path, mem_buildMap_path]
    constructor
    · rintro (hp | ⟨g, hg, hk, hp⟩)
      · exact absurd hp (by simp [mapLookup])
      · exact Or.inr ⟨g, hperm.mem_iff.mpr hg, hk, hp⟩
    · rintro (hp | ⟨g, hg, hk, hp⟩)
      · exact absurd hp (by simp [mapLookup])
      · exact Or.inr ⟨g, hperm.mem_iff.mp hg, hk, hp⟩

/-- Witness for C8 at concrete inputs: reversing the two sample files changes
neither the size-group nor the hash-group path membership. -/
theorem pipeline_deterministic_witness :
    (([sampleA, sampleB] : List FileInfo).Perm [sampleB, sampleA] ∧
      (("a" : String) ∈ (mapLookup (sizewise [sampleA, sampleB]) 1).map FileInfo.path ↔
        ("a" : String) ∈ (mapLookup (sizewise [sampleB, sampleA]) 1).map FileInfo.path)) ∧
    (hashwise false 0 (sizewise [sampleA, sampleB])
        = Except.ok [(([0], 0), [sampleA, sampleB])] ∧
      ([sampleB, sampleA] : List FileInfo).Perm
        ((qualifying (sizewise [sampleA, sampleB])).flatMap (fun kv => kv.2)) ∧
      (("a" : String) ∈ (mapLookup [((([0], 0) : Digest), [sampleA, sampleB])]
          (([0], 0) : Digest)).map FileInfo.path ↔
        ("a" : String) ∈ (mapLookup (buildMap
            (fun f => (fileDigest false 0 f).toOption) [] [sampleB, sampleA])
          (([0], 0) : Digest)).map FileInfo.path)) := by
  refine ⟨⟨by decide, ?_⟩, by rfl, by decide, ?_⟩
  · exact pipeline_deterministic.1 [sampleA, sampleB] [sampleB, sampleA] (by decide) 1 "a"
  · exact pipeline_deterministic.2 false 0 (sizewise [sampleA, sampleB])
      [(([0], 0), [sampleA, sampleB])] (by rfl) [sampleB, sampleA] (by decide)
      (([0], 0) : Digest) "a"

/-- Counterexample for C3: two unreadable files sharing a size form a
qualifying bucket, and the hash stage run over them aborts with the digest
error (the `.expect` at processor.rs:74-75 panics) instead of skipping the
failing files and producing a hash map. -/
theorem per_file_error_counterexample :
    hashwise false 0 (sizewise [sampleBadA, sampleBadB])
      = Except.error "io error" := by
  rfl

/-- Amended C3: in the hash-grouping stage a per-file digest failure aborts
the whole stage (the code `.expect`s the digest), while in the comparison
engine a failing file is excluded from the duplicates table, a warning is
printed for it, and every other file whose digest succeeds is still indexed. -/
theorem per_file_error_handling :
    (∀ (strict : Bool) (seed : Int) (sw : SizeMap) (kv : Nat × List FileInfo)
        (f : FileInfo) (e : String),
        kv ∈ qualifying sw → f ∈ kv.2 →
        fileDigest strict seed f = Except.error e →
        ∃ e2, hashwise strict seed sw = Except.error e2) ∧
    (∀ (files : List FileInfo) (seed : Int) (f : FileInfo) (e : String),
        f ∈ files → f.hash seed = Except.error e →
        (∀ kv ∈ comparisonTable files seed, f ∉ kv.2) ∧
        ("Warning: Failed to hash file " ++ f.path ++ ": " ++ e)
          ∈ comparisonStderr files seed) ∧
    (∀ (files : List FileInfo) (seed : Int) (g : FileInfo) (d : Digest),
        g ∈ files → g.hash seed = Except.ok d →
        g.path ∈ (mapLookup (comparisonTable files seed) d).map FileInfo.path) := by
  refine ⟨?_, ?_, ?_⟩
  · intro strict seed sw kv f e hkv hf herr
    cases hres : hashwise strict seed sw with
    | error e2 => exact ⟨e2, rfl⟩
    | ok m =>
      obtain ⟨d, hd⟩ := hashwise_ok_digests strict seed sw m hres kv hkv f hf
      rw [herr] at hd
      exact Except.noConfusion hd
  · intro files seed f e hff herr
    constructor
    · intro kv hkv hfin
      have h2 : (FileInfo.hash f seed).toOption = some kv.1 :=
        buildMap_members_key _ files [] (by simp) kv hkv f hfin
      rw [herr] at h2
      exact Option.noConfusion h2
    · apply List.mem_filterMap.mpr
      refine ⟨f, hff, ?_⟩
      show (match f.hash seed with
        | Except.ok _ => none
        | Except.error e2 =>
          some ("Warning: Failed to hash file " ++ f.path ++ ": " ++ e2)) = _
      rw [herr]
  · intro files seed g d hg hok
    unfold comparisonTable
    rw [mem_buildMap_path]
    exact Or.inr ⟨g, hg, show (FileInfo.hash g seed).toOption = some d by rw [hok]; rfl, rfl⟩

/-- Witness for the amended C3 at concrete inputs: an unreadable file in a
qualifying bucket aborts the hash stage, and in comparison mode it is skipped
with a warning while the readable file is still indexed. -/
theorem per_file_error_handling_witness :
    ((Prod.mk (7 : Nat) [sampleBadA, sampleBadB]
        ∈ qualifying (sizewise [sampleBadA, sampleBadB])) ∧
      (sampleBadA ∈ [sampleBadA, sampleBadB]) ∧
      fileDigest false 0 sampleBadA = Except.error "io error" ∧
      (∃ e2, hashwise false 0 (sizewise [sampleBadA, sampleBadB]) = Except.error e2)) ∧
    ((sampleBadA ∈ [sampleBadA, sampleB]) ∧
      sampleBadA.hash 0 = Except.error "io error" ∧
      ((∀ kv ∈ comparisonTable [sampleBadA, sampleB] 0, sampleBadA ∉ kv.2) ∧
        ("Warning: Failed to hash file " ++ sampleBadA.path ++ ": " ++ "io error")
          ∈ comparisonStderr [sampleBadA, sampleB] 0)) ∧
    ((sampleB ∈ [sampleBadA, sampleB]) ∧
      sampleB.hash 0 = Except.ok (([0], 0) : Digest) ∧
      sampleB.path ∈ (mapLookup (comparisonTable [sampleBadA, sampleB] 0)
        (([0], 0) : Digest)).map FileInfo.path) := by
  refine ⟨⟨by decide, by decide, by rfl, ?_⟩, ⟨by decide, by rfl, ?_⟩,
    ⟨by decide, by rfl, ?_⟩⟩
  · exact per_file_error_handling.1 false 0 (sizewise [sampleBadA, sampleBadB])
      (Prod.mk (7 : Nat) [sampleBadA, sampleBadB]) sampleBadA "io error"
      (by decide) (by decide) (by rfl)
  · exact per_file_error_handling.2.1 [sampleBadA, sampleB] 0 sampleBadA "io error"
      (by decide) (by rfl)
  · exact per_file_error_handling.2.2 [sampleBadA, sampleB] 0 sampleB
      (([0], 0) : Digest) (by decide) (by rfl)
